import Mathlib

/-!
Shallow embedding of the code-aware semantic index service (Rust sources under
`src/services/indexer/src/`), together with theorems settling the frozen claims
about it.  Machine integers are modelled by `Nat`/`Int`, `f32` scores by exact
rationals, fallible code by `Except`, and external collaborators (the tree-sitter
parser, the git repository, embedding providers, the SQL database, UUID and clock
generation) by explicit function parameters or explicit state.
-/

set_option maxRecDepth 16384

namespace AgentIndex

/-! ## Symbol kinds (symbol_registry.rs) -/

/-- Closed enumeration of symbol kinds, translated from `SymbolKind` in
`symbol_registry.rs`. -/
inductive SymbolKind where
  | Function
  | Class
  | Interface
  | Enum
  | Constant
  | Variable
  | TypeKind
  | Module
  | Method
  | Property
  | Namespace
  | Trait
  | Impl
  | Struct
deriving DecidableEq, Repr

/-- Lowercase string form, translated from `impl fmt::Display for SymbolKind`. -/
def SymbolKind.toStr : SymbolKind → String
  | .Function => "function"
  | .Class => "class"
  | .Interface => "interface"
  | .Enum => "enum"
  | .Constant => "constant"
  | .Variable => "variable"
  | .TypeKind => "type"
  | .Module => "module"
  | .Method => "method"
  | .Property => "property"
  | .Namespace => "namespace"
  | .Trait => "trait"
  | .Impl => "impl"
  | .Struct => "struct"

/-- Parsing of the string form, translated from `impl FromStr for SymbolKind`
(the Rust `match` on string literals is an equality chain). -/
def symbolKindFromStr (s : String) : Except Unit SymbolKind :=
  if s = "function" then .ok .Function
  else if s = "class" then .ok .Class
  else if s = "interface" then .ok .Interface
  else if s = "enum" then .ok .Enum
  else if s = "constant" then .ok .Constant
  else if s = "variable" then .ok .Variable
  else if s = "type" then .ok .TypeKind
  else if s = "module" then .ok .Module
  else if s = "method" then .ok .Method
  else if s = "property" then .ok .Property
  else if s = "namespace" then .ok .Namespace
  else if s = "trait" then .ok .Trait
  else if s = "impl" then .ok .Impl
  else if s = "struct" then .ok .Struct
  else .error ()

/-! ## Boundary path validation (grpc_service.rs, validation.rs) -/

/-- The `MAX_PATH_LENGTH` from validation.rs line 6: `4 * 1024`. -/
def MAX_PATH_LENGTH : Nat := 4 * 1024

/-- Rust `char::is_whitespace` (the Unicode White_Space property), used by
`str::trim` in the blank check of `validate_path`. -/
def rustIsWhitespace (c : Char) : Bool :=
  c = ' ' || c = '\t' || c = '\n' || c.toNat = 0x0B || c.toNat = 0x0C || c = '\r' ||
  c.toNat = 0x85 || c.toNat = 0xA0 || c.toNat = 0x1680 ||
  (0x2000 ≤ c.toNat && c.toNat ≤ 0x200A) ||
  c.toNat = 0x2028 || c.toNat = 0x2029 || c.toNat = 0x202F ||
  c.toNat = 0x205F || c.toNat = 0x3000

/-- Rust `path.trim().is_empty()`: true iff every character is whitespace
(vacuously true for the empty string). -/
def isBlank (s : String) : Bool :=
  s.data.all rustIsWhitespace

/-- Membership test for the NUL/CR/LF control characters, Rust
`path.contains(['\0', '\r', '\n'])`. -/
def hasControlChar (s : String) : Bool :=
  s.data.any fun c => c = '\x00' || c = '\r' || c = '\n'

/-- Boundary path validation, translated from `validate_path` in
grpc_service.rs lines 78-92.  Rust `path.len()` counts UTF-8 bytes, modelled by
`String.utf8ByteSize`. -/
def validate_path (path : String) : Except String Unit :=
  if isBlank path then .error "path cannot be blank"
  else if path.utf8ByteSize > MAX_PATH_LENGTH then
    .error "path exceeds maximum length"
  else if hasControlChar path then
    .error "path contains invalid control characters"
  else .ok ()

/-! ## CI-correlation relevance scoring (temporal.rs `calculate_relevance`) -/

/-- Prefix test on character lists, Rust slice-level `starts_with`. -/
def startsWithL : List Char → List Char → Bool
  | _, [] => true
  | [], _ :: _ => false
  | c :: cs, d :: ds => c = d && startsWithL cs ds

/-- Substring containment on character lists, Rust `str::contains` with a
string pattern (an empty pattern is always contained). -/
def containsL : List Char → List Char → Bool
  | [], needle => startsWithL [] needle
  | c :: t, needle => startsWithL (c :: t) needle || containsL t needle

/-- ASCII lowercasing of a character list, modelling Rust `str::to_lowercase`
(which the code only meets on ASCII identifiers and paths). -/
def lowerL (s : List Char) : List Char :=
  s.map Char.toLower

/-- Rust `test_name.split(|c: char| !c.is_alphanumeric())`: split on every
non-alphanumeric character, keeping empty segments (the caller filters them).
`cur` is the reversed current segment. -/
def splitNonAlnum : List Char → List Char → List (List Char)
  | [], cur => [cur.reverse]
  | c :: rest, cur =>
    if c.isAlphanum then splitNonAlnum rest (c :: cur)
    else cur.reverse :: splitNonAlnum rest []

/-- Whether one token of the test name scores: non-empty and contained
case-insensitively in the file path. -/
def tokenMatches (file_path : String) (part : List Char) : Bool :=
  !part.isEmpty && containsL (lowerL file_path.data) (lowerL part)

/-- Relevance score, translated from `calculate_relevance` in temporal.rs
lines 659-681; the `f32` arithmetic is modelled by exact rationals. -/
def calculate_relevance (file_path test_name failure_message : String) : ℚ :=
  let test_parts := splitNonAlnum test_name.data []
  let score0 : ℚ :=
    test_parts.foldl
      (fun sc part => if tokenMatches file_path part then sc + 3/10 else sc) 0
  let score1 : ℚ :=
    if containsL failure_message.data file_path.data then score0 + 5/10 else score0
  let score2 : ℚ :=
    if containsL file_path.data "test".data || containsL file_path.data "spec".data
    then score1 + 2/10 else score1
  min score2 1

/-- Number of scoring tokens of the test name. -/
def matchCount (file_path test_name : String) : Nat :=
  ((splitNonAlnum test_name.data []).filter (tokenMatches file_path)).length

/-- Bonus for the failure message containing the exact path. -/
def messageBonus (file_path failure_message : String) : ℚ :=
  if containsL failure_message.data file_path.data then 5/10 else 0

/-- Bonus for a test- or spec-like path. -/
def pathBonus (file_path : String) : ℚ :=
  if containsL file_path.data "test".data || containsL file_path.data "spec".data
  then 2/10 else 0

/-! ## Embedding gateway (embeddings.rs) -/

/-- The `EMBEDDING_DIM` from embeddings.rs line 24. -/
def EMBEDDING_DIM : Nat := 384

/-- Error enumeration from embeddings.rs. -/
inductive EmbeddingError where
  | generation (msg : String)
  | modelLoad (msg : String)
  | httpClient (msg : String)
deriving DecidableEq, Repr

/-- The embedding manager: either the local BERT provider or the remote
orchestrator provider (embeddings.rs `EmbeddingManager`).  Both providers are
external collaborators (an ML model, an HTTP endpoint); each is modelled by the
function it implements.  For the orchestrator variant the function stands for
the HTTP round-trip up to and including JSON extraction of the `embedding`
array, since the dimension check that follows it lives in this repository. -/
inductive EmbeddingManager where
  | localProvider (infer : String → Except EmbeddingError (List ℚ))
  | orchestrator (respond : String → Except EmbeddingError (List ℚ))

/-- The `OrchestratorProvider::embed`: forward the text, propagate transport
errors, then reject any response whose dimension differs from
`EMBEDDING_DIM`. -/
def orchestratorEmbed (respond : String → Except EmbeddingError (List ℚ))
    (text : String) : Except EmbeddingError (List ℚ) :=
  match respond text with
  | .error e => .error e
  | .ok embedding =>
    if embedding.length = EMBEDDING_DIM then .ok embedding
    else .error (.generation "unexpected embedding dimension")

/-- The `EmbeddingManager::embed` (embeddings.rs lines 262-268): dispatch to the
selected provider.  The second component counts provider invocations performed
by the call, so that claims about short-circuiting are expressible. -/
def EmbeddingManager.embed :
    EmbeddingManager → String → Except EmbeddingError (List ℚ) × Nat
  | .localProvider infer, text => (infer text, 1)
  | .orchestrator respond, text => (orchestratorEmbed respond text, 1)

/-- The zero vector of a given dimension. -/
def zeroVec (n : Nat) : List ℚ :=
  List.replicate n 0

/-- Squared Euclidean norm of a vector. -/
def normSq (v : List ℚ) : ℚ :=
  (v.map fun x => x * x).sum

/-! ## Storage layer: documents table (storage.rs `Storage::index_document`) -/

/-- Error enumeration from storage.rs `StorageError`. -/
inductive StorageError where
  | documentNotFound (msg : String)
  | symbolNotFound (msg : String)
  | database (msg : String)
  | invalidInput (msg : String)
  | embeddingErr (msg : String)
  | configuration (msg : String)
deriving DecidableEq, Repr

/-- One row of the `documents` table (`StoredDocument` plus the columns the
upsert touches); UUIDs are modelled by `Nat`, timestamps by `Nat`. -/
structure DocumentRow where
  id : Nat
  path : String
  content : String
  embedding : List ℚ
  commit_id : Option String
  created_at : Nat
  updated_at : Nat
deriving DecidableEq, Repr

/-- The `Storage::index_document` (storage.rs lines 131-171): embed the content,
then upsert by `path`.  The database table is explicit state (`table`), the
embedding manager is the function `embed`, `Uuid::new_v4()` is the parameter
`newId` and `Utc::now()` the parameter `now`.  On conflict the existing row
keeps its `id` and `created_at` while content, embedding, commit id and
`updated_at` are replaced; the function returns `newId` either way (the row id
returned by the SQL `RETURNING id` is discarded by the Rust code). -/
def index_document (embed : String → Except EmbeddingError (List ℚ))
    (table : List DocumentRow) (path content : String) (commit_id : Option String)
    (newId now : Nat) : Except StorageError (List DocumentRow × Nat) :=
  match embed content with
  | .error e =>
    .error (.embeddingErr (match e with
      | .generation m => m | .modelLoad m => m | .httpClient m => m))
  | .ok emb =>
    if table.any (fun r => r.path = path) then
      .ok (table.map (fun r =>
        if r.path = path then
          { r with content := content, embedding := emb,
                   commit_id := commit_id, updated_at := now }
        else r), newId)
    else
      .ok (table ++ [{ id := newId, path := path, content := content,
                       embedding := emb, commit_id := commit_id,
                       created_at := now, updated_at := now }], newId)

/-! ## Symbol registry hydration (symbol_registry.rs `load_from_storage`) -/

/-- Identity of a registered symbol (`SymbolKey`). -/
structure SymbolKey where
  path : String
  name : String
  kind : SymbolKind
deriving DecidableEq, Repr

/-- Source position, 0-based (`Position`). -/
structure Position where
  line : Nat
  character : Nat
deriving DecidableEq, Repr

/-- Source range (`Range`). -/
structure SourceRange where
  start : Position
  stop : Position
deriving DecidableEq, Repr

/-- The two JSON shapes the code stores in the free-form `metadata` column:
`json!({"doc": doc})` during symbol ingest and the file summary built by
`get_symbol_at_commit_blocking`. -/
inductive MetaValue where
  | docMeta (doc : String)
  | fileMeta (extracted_symbols_count : Nat) (extracted_symbols : List String)
      (language : String)
deriving DecidableEq, Repr

/-- One row of the `symbols` table (`StoredSymbol`); `i32` line numbers become
`Int`, UUIDs and timestamps `Nat`. -/
structure StoredSymbolRow where
  id : Nat
  path : String
  name : String
  kind : String
  content : String
  embedding : List ℚ
  commit_id : Option String
  start_line : Int
  end_line : Int
  metadata : Option MetaValue
  created_at : Nat
  updated_at : Nat
deriving DecidableEq, Repr

/-- In-memory registry record (`Symbol` in symbol_registry.rs). -/
structure RegistrySymbol where
  id : Nat
  key : SymbolKey
  content : String
  location : SourceRange
  doc_comment : Option String
  children : List Nat
  parent : Option Nat
  commit_id : Option String
  created_at : Nat
  updated_at : Nat
deriving DecidableEq, Repr

/-- The registry's two hash maps, modelled as functions. -/
structure RegistryMaps where
  index : SymbolKey → Option Nat
  symbols : Nat → Option RegistrySymbol

/-- The empty registry state. -/
def RegistryMaps.empty : RegistryMaps :=
  ⟨fun _ => none, fun _ => none⟩

/-- The in-memory record built from one stored row during hydration:
`SymbolKind::from_str(..).unwrap_or(SymbolKind::Function)`, default character
columns, no doc comment and no hierarchy (symbol_registry.rs lines 150-201). -/
def hydrateSymbol (ss : StoredSymbolRow) : RegistrySymbol :=
  { id := ss.id
    key := { path := ss.path, name := ss.name,
             kind := match symbolKindFromStr ss.kind with
               | .ok k => k
               | .error _ => SymbolKind.Function }
    content := ss.content
    location := { start := { line := ss.start_line.toNat, character := 0 },
                  stop := { line := ss.end_line.toNat, character := 0 } }
    doc_comment := none
    children := []
    parent := none
    commit_id := ss.commit_id
    created_at := ss.created_at
    updated_at := ss.updated_at }

/-- HashMap insertion on the function model of a map. -/
def mapInsert {κ α : Type} [DecidableEq κ] (m : κ → Option α) (k : κ) (v : α) :
    κ → Option α :=
  fun q => if q = k then some v else m q

/-- The `SymbolRegistry::load_from_storage`: fold every stored row into both maps
in order; a row whose kind string does not parse is still registered (under
`Function`), and hydration never fails. -/
def load_from_storage (stored : List StoredSymbolRow) : RegistryMaps :=
  stored.foldl
    (fun maps ss =>
      let sym := hydrateSymbol ss
      { index := mapInsert maps.index sym.key ss.id
        symbols := mapInsert maps.symbols ss.id sym })
    RegistryMaps.empty

/-! ## Symbol extractor (symbol_extractor.rs)

The tree-sitter parser is an external collaborator; the extractor consumes an
abstract concrete-syntax tree with field-by-name access.  A node carries its
kind, its source text (`utf8_text`), its range, and its children, each child
tagged with its optional field name.  Sibling and parent access in the Rust
code (used only for doc comments) is modelled by threading the list of
previous siblings (nearest first) and the parent's previous siblings through
the traversal. -/

/-- A concrete-syntax-tree node. -/
inductive CNode where
  | mk (kind : String) (text : String) (range : SourceRange)
       (children : List (Option String × CNode))

/-- Node kind. -/
def CNode.kind : CNode → String
  | .mk k _ _ _ => k

/-- Node source text (`utf8_text`, which the model takes as always valid). -/
def CNode.text : CNode → String
  | .mk _ t _ _ => t

/-- Node range (`node_to_range`). -/
def CNode.range : CNode → SourceRange
  | .mk _ _ r _ => r

/-- Children with field names, in source order. -/
def CNode.children : CNode → List (Option String × CNode)
  | .mk _ _ _ c => c

/-- Find the first child carrying the given field name, returning also the
children that precede it (nearest first), which are its previous siblings. -/
def findFieldWithPrevs (name : String) :
    List CNode → List (Option String × CNode) → Option (List CNode × CNode)
  | _, [] => none
  | acc, (f, c) :: rest =>
    if f = some name then some (acc, c)
    else findFieldWithPrevs name (c :: acc) rest

/-- The `Node::child_by_field_name`. -/
def CNode.childByFieldName (n : CNode) (name : String) : Option CNode :=
  (findFieldWithPrevs name [] n.children).map (·.2)

/-- The extractor's output tree (`ExtractedSymbol`). -/
inductive ExtractedSymbol where
  | mk (name : String) (kind : SymbolKind) (range : SourceRange)
       (content : String) (docComment : Option String)
       (children : List ExtractedSymbol)

/-- Extracted name. -/
def ExtractedSymbol.name : ExtractedSymbol → String
  | .mk n _ _ _ _ _ => n

/-- Extracted kind. -/
def ExtractedSymbol.kind : ExtractedSymbol → SymbolKind
  | .mk _ k _ _ _ _ => k

/-- Extracted children. -/
def ExtractedSymbol.children : ExtractedSymbol → List ExtractedSymbol
  | .mk _ _ _ _ _ c => c

/-- Walk of the previous siblings collecting doc comments
(`extract_doc_comment`): contiguous comment nodes contribute their text when it
opens with a doc marker; the walk stops at the first non-comment,
non-whitespace sibling.  The accumulator ends up farthest-comment-first, which
is exactly the Rust `comments.reverse()`. -/
def collectDocComments : List CNode → List String → List String
  | [], comments => comments
  | sib :: rest, comments =>
    if sib.kind = "comment" || sib.kind = "line_comment" ||
        sib.kind = "block_comment" then
      if sib.text.startsWith "/**" || sib.text.startsWith "///" then
        collectDocComments rest (sib.text :: comments)
      else
        collectDocComments rest comments
    else if !(containsL sib.kind.data "whitespace".data) then comments
    else collectDocComments rest comments

/-- The `extract_doc_comment`, given the node's previous siblings nearest
first. -/
def extractDocComment (prevs : List CNode) : Option String :=
  let comments := collectDocComments prevs []
  if comments.isEmpty then none
  else some (String.intercalate "\n" comments)

/-- The `extract_interface`: name child required, no descent into the body. -/
def extract_interface (prevs : List CNode) (n : CNode) : Option ExtractedSymbol :=
  match n.childByFieldName "name" with
  | none => none
  | some nameNode =>
    some (.mk nameNode.text .Interface n.range n.text (extractDocComment prevs) [])

/-- The `extract_enum`: name child required, no descent into the body. -/
def extract_enum (prevs : List CNode) (n : CNode) : Option ExtractedSymbol :=
  match n.childByFieldName "name" with
  | none => none
  | some nameNode =>
    some (.mk nameNode.text .Enum n.range n.text (extractDocComment prevs) [])

/-- The `extract_method`: name child required, no descent into the body. -/
def extract_method (prevs : List CNode) (n : CNode) : Option ExtractedSymbol :=
  match n.childByFieldName "name" with
  | none => none
  | some nameNode =>
    some (.mk nameNode.text .Method n.range n.text (extractDocComment prevs) [])

/-- The `extract_constant`: the Rust body is entirely commented out and returns
`None`. -/
def extract_constant (_n : CNode) : Option ExtractedSymbol :=
  none

/-- The `extract_variable_declarator`: the doc comment is borrowed from the parent
declaration node (`node.parent().unwrap_or(node)`), so it reads the parent's
previous siblings. -/
def extract_variable_declarator (parentPrevs : List CNode) (n : CNode) :
    Option ExtractedSymbol :=
  match n.childByFieldName "name" with
  | none => none
  | some nameNode =>
    some (.mk nameNode.text .Constant n.range n.text
      (extractDocComment parentPrevs) [])

/-- The `extract_struct`: name child required, no descent into the body. -/
def extract_struct (prevs : List CNode) (n : CNode) : Option ExtractedSymbol :=
  match n.childByFieldName "name" with
  | none => none
  | some nameNode =>
    some (.mk nameNode.text .Struct n.range n.text (extractDocComment prevs) [])

/-- The `extract_trait`: name child required, no descent into the body. -/
def extract_trait (prevs : List CNode) (n : CNode) : Option ExtractedSymbol :=
  match n.childByFieldName "name" with
  | none => none
  | some nameNode =>
    some (.mk nameNode.text .Trait n.range n.text (extractDocComment prevs) [])

/-- The `extract_impl`: synthetic name from the `type` field, no descent into the
body. -/
def extract_impl (prevs : List CNode) (n : CNode) : Option ExtractedSymbol :=
  match n.childByFieldName "type" with
  | none => none
  | some typeNode =>
    some (.mk ("impl " ++ typeNode.text) .Impl n.range n.text
      (extractDocComment prevs) [])

/-- The `extract_module`: name child required, no descent into the body. -/
def extract_module (prevs : List CNode) (n : CNode) : Option ExtractedSymbol :=
  match n.childByFieldName "name" with
  | none => none
  | some nameNode =>
    some (.mk nameNode.text .Module n.range n.text (extractDocComment prevs) [])

/-- The `extract_class_member`: methods and fields inside a class body; the doc
comment reads the member's own previous siblings. -/
def extract_class_member (prevs : List CNode) (n : CNode) : Option ExtractedSymbol :=
  match n.childByFieldName "name" with
  | none => none
  | some nameNode =>
    match n.kind with
    | "method_definition" =>
      some (.mk nameNode.text .Method n.range n.text (extractDocComment prevs) [])
    | "field_definition" =>
      some (.mk nameNode.text .Property n.range n.text (extractDocComment prevs) [])
    | _ => none

theorem sizeOf_children_lt (n : CNode) : sizeOf n.children < sizeOf n := by
  cases n with
  | mk k t r c => simp [CNode.children]

theorem sizeOf_snd_lt_of_mem {p : Option String × CNode}
    {cs : List (Option String × CNode)} (h : p ∈ cs) : sizeOf p.2 < sizeOf cs := by
  have h1 : sizeOf p < sizeOf cs := List.sizeOf_lt_of_mem h
  cases p with
  | mk f c => simp at h1 ⊢; omega

theorem findFieldWithPrevs_mem {name : String} {acc : List CNode}
    {cs : List (Option String × CNode)} {a : List CNode} {c : CNode}
    (h : findFieldWithPrevs name acc cs = some (a, c)) :
    ∃ f, (f, c) ∈ cs := by
  induction cs generalizing acc with
  | nil => simp [findFieldWithPrevs] at h
  | cons p rest ih =>
    cases p with
    | mk f c0 =>
      by_cases hf : f = some name
      · simp [findFieldWithPrevs, hf] at h
        exact ⟨f, by simp [h.2]⟩
      · simp [findFieldWithPrevs, hf] at h
        obtain ⟨g, hg⟩ := ih h
        exact ⟨g, by simp [hg]⟩

theorem findFieldWithPrevs_sizeOf {name : String} {acc : List CNode}
    {cs : List (Option String × CNode)} {a : List CNode} {c : CNode}
    (h : findFieldWithPrevs name acc cs = some (a, c)) : sizeOf c < sizeOf cs := by
  obtain ⟨f, hf⟩ := findFieldWithPrevs_mem h
  have := sizeOf_snd_lt_of_mem hf
  simpa using this

mutual

/-- The `SymbolExtractor::extract_symbol` (symbol_extractor.rs lines 51-73): the
recognition table dispatching on the node kind.  `pp` is the parent's previous
siblings (only the variable declarator reads it), `prevs` the node's own
previous siblings. -/
def extractSymbol (pp prevs : List CNode) (n : CNode) : Option ExtractedSymbol :=
  match n.kind with
  | "function_declaration" => extract_function prevs n
  | "function" => extract_function prevs n
  | "class_declaration" => extract_class prevs n
  | "class" => extract_class prevs n
  | "interface_declaration" => extract_interface prevs n
  | "enum_declaration" => extract_enum prevs n
  | "method_definition" => extract_method prevs n
  | "const_declaration" => extract_constant n
  | "lexical_declaration" => extract_constant n
  | "variable_declarator" => extract_variable_declarator pp n
  | "function_item" => extract_function prevs n
  | "struct_item" => extract_struct prevs n
  | "enum_item" => extract_enum prevs n
  | "trait_item" => extract_trait prevs n
  | "impl_item" => extract_impl prevs n
  | "mod_item" => extract_module prevs n
  | _ => none
termination_by 2 * sizeOf n + 1
decreasing_by
  all_goals simp_wf
  all_goals omega

/-- The `extract_function`: name child required; descends into the `body` field and
attaches every symbol extracted from its children. -/
def extract_function (prevs : List CNode) (n : CNode) : Option ExtractedSymbol :=
  match n.childByFieldName "name" with
  | none => none
  | some nameNode =>
    let children :=
      match hbody : findFieldWithPrevs "body" [] n.children with
      | none => []
      | some (bodyPrevs, body) => extractBody bodyPrevs [] body.children
    some (.mk nameNode.text .Function n.range n.text (extractDocComment prevs)
      children)
termination_by 2 * sizeOf n
decreasing_by
  have h1 := findFieldWithPrevs_sizeOf hbody
  have h2 := sizeOf_children_lt body
  have h3 := sizeOf_children_lt n
  simp_wf
  omega

/-- The `extract_class`: name child required; descends into the `body` field,
attaching extracted symbols and, as a fallback, `field_definition` members. -/
def extract_class (prevs : List CNode) (n : CNode) : Option ExtractedSymbol :=
  match n.childByFieldName "name" with
  | none => none
  | some nameNode =>
    let children :=
      match hbody : findFieldWithPrevs "body" [] n.children with
      | none => []
      | some (bodyPrevs, body) => extractClassBody bodyPrevs [] body.children
    some (.mk nameNode.text .Class n.range n.text (extractDocComment prevs)
      children)
termination_by 2 * sizeOf n
decreasing_by
  have h1 := findFieldWithPrevs_sizeOf hbody
  have h2 := sizeOf_children_lt body
  have h3 := sizeOf_children_lt n
  simp_wf
  omega

/-- The loop over a function body's children: each child is offered to
`extractSymbol`; `done` accumulates the already-seen children as the next
child's previous siblings. -/
def extractBody (bodyPrevs done : List CNode)
    (cs : List (Option String × CNode)) : List ExtractedSymbol :=
  match cs with
  | [] => []
  | (_, c) :: rest =>
    match extractSymbol bodyPrevs done c with
    | some s => s :: extractBody bodyPrevs (c :: done) rest
    | none => extractBody bodyPrevs (c :: done) rest
termination_by 2 * sizeOf cs + 2
decreasing_by
  all_goals simp_wf
  all_goals omega

/-- The loop over a class body's children, with the `field_definition`
fallback of `extract_class`. -/
def extractClassBody (bodyPrevs done : List CNode)
    (cs : List (Option String × CNode)) : List ExtractedSymbol :=
  match cs with
  | [] => []
  | (_, c) :: rest =>
    match extractSymbol bodyPrevs done c with
    | some s => s :: extractClassBody bodyPrevs (c :: done) rest
    | none =>
      if c.kind = "field_definition" then
        match extract_class_member done c with
        | some s => s :: extractClassBody bodyPrevs (c :: done) rest
        | none => extractClassBody bodyPrevs (c :: done) rest
      else extractClassBody bodyPrevs (c :: done) rest
termination_by 2 * sizeOf cs + 2
decreasing_by
  all_goals simp_wf
  all_goals omega

end

mutual

/-- The `SymbolExtractor::visit` (symbol_extractor.rs lines 40-49): if a symbol is
recognised push it and stop; otherwise recurse into every child. -/
def visit (pp prevs : List CNode) (n : CNode) : List ExtractedSymbol :=
  match extractSymbol pp prevs n with
  | some s => [s]
  | none => visitChildren prevs [] n.children
termination_by 2 * sizeOf n + 1
decreasing_by
  have h3 := sizeOf_children_lt n
  simp_wf
  omega

/-- The recursion of `visit` over a node's children, threading previous
siblings. -/
def visitChildren (pp done : List CNode)
    (cs : List (Option String × CNode)) : List ExtractedSymbol :=
  match cs with
  | [] => []
  | (_, c) :: rest => visit pp done c ++ visitChildren pp (c :: done) rest
termination_by 2 * sizeOf cs
decreasing_by
  all_goals simp_wf
  all_goals omega

end

/-- Parse errors surfaced by the extractor (`AstError`). -/
inductive AstError where
  | unsupportedLanguage (lang : String)
  | parseFailed (msg : String)
deriving DecidableEq, Repr

/-- The `extract_symbols`: parse (external tree-sitter, passed as `parse`), then
visit the root, whose sibling lists are empty. -/
def extract_symbols (parse : String → String → Except AstError CNode)
    (source language_id : String) : Except AstError (List ExtractedSymbol) :=
  match parse language_id source with
  | .error e => .error e
  | .ok root => .ok (visit [] [] root)

/-! ## Temporal index (temporal.rs)

The git repository is an external collaborator; it is modelled by the functions
the code calls on it: commit resolution, tree diffing, and tree-entry lookup.
Fresh UUIDs and `Utc::now()` are explicit parameters; the claims settled here
do not depend on them. -/

/-- Git delta statuses the code inspects (git2's `Delta`; statuses other than
the first four are folded into a catch-all by the code's wildcard arm). -/
inductive GitDelta where
  | Added
  | Modified
  | Deleted
  | Renamed
  | Copied
  | Typechange
deriving DecidableEq, Repr

/-- The `ChangeType` from temporal.rs. -/
inductive ChangeType where
  | Added
  | Modified
  | Deleted
  | Renamed
deriving DecidableEq, Repr

/-- The status mapping used by `correlate_ci_failure`: the wildcard arm maps
every other status to `Modified`. -/
def deltaToChangeType : GitDelta → ChangeType
  | .Added => .Added
  | .Modified => .Modified
  | .Deleted => .Deleted
  | .Renamed => .Renamed
  | .Copied => .Modified
  | .Typechange => .Modified

/-- Error enumeration from temporal.rs `TemporalError` (the variants the
modelled operations can produce). -/
inductive TemporalError where
  | git (msg : String)
  | storage (msg : String)
  | repositoryNotFound (msg : String)
  | commitNotFound (msg : String)
  | invalidPath (msg : String)
  | parseError (msg : String)
deriving DecidableEq, Repr

/-- A git object found at a tree path: a blob with content, or something else
(`object.as_blob()` returning `None`). -/
inductive GitObjectM where
  | blob (content : String)
  | nonBlob
deriving DecidableEq, Repr

/-- The git repository as the temporal index consumes it.  `openOk` models
`Repository::open` succeeding; `findCommit` models `Oid::from_str` plus
`find_commit` plus `tree()` succeeding for a commit-id string; `diff` gives,
for a (previous, current) commit pair, the `new_file` path and status of every
delta that `diff_tree_to_tree` + `foreach` reports; `entry` models
`tree.get_path` followed by `to_object` at a commit. -/
structure RepoModel where
  openOk : Bool
  findCommit : String → Bool
  diff : String → String → List (String × GitDelta)
  entry : String → String → Option GitObjectM

/-- Rust `Path::new(path).file_name()` followed by
`unwrap_or_default().to_string_lossy()`: the final path component, with a
trailing separator ignored and a `..` final component mapped to the empty
string. -/
def pathFileName (path : String) : String :=
  let comps := (path.splitOn "/").filter (fun c => c ≠ "" && c ≠ ".")
  match comps.getLast? with
  | none => ""
  | some last => if last = ".." then "" else last

/-- Rust `content.lines().count()`: newline-separated segments, with a final
empty segment (from a trailing newline) not counted. -/
def linesCount (s : String) : Nat :=
  let parts := s.splitOn "\n"
  (if parts.getLast? = some "" then parts.dropLast else parts).length

/-- The extension-based language table of `get_symbol_at_commit_blocking`. -/
def languageOfPath (path : String) : String :=
  if path.endsWith ".rs" then "rust"
  else if path.endsWith ".ts" || path.endsWith ".tsx" then "typescript"
  else if path.endsWith ".js" || path.endsWith ".jsx" then "javascript"
  else "unknown"

/-- The `get_symbol_at_commit_blocking` (temporal.rs lines 592-657): resolve the
commit, look the path up in its tree; a missing entry or a non-blob object
yields `none`; a blob yields a synthetic `StoredSymbol` of kind `"File"` whose
metadata lists the extracted symbol names for known languages (extraction
errors are discarded by `unwrap_or_default`).  `parse` is the external
tree-sitter parser; `freshId` and `now` stand for `Uuid::new_v4()` and
`Utc::now()`. -/
def get_symbol_at_commit_blocking (parse : String → String → Except AstError CNode)
    (repo : RepoModel) (freshId now : Nat) (path commit_id : String) :
    Except TemporalError (Option StoredSymbolRow) :=
  if !repo.findCommit commit_id then .error (.git "commit lookup failed")
  else
    match repo.entry commit_id path with
    | none => .ok none
    | some .nonBlob => .ok none
    | some (.blob content) =>
      let language := languageOfPath path
      let extracted :=
        if language ≠ "unknown" then
          match extract_symbols parse content language with
          | .ok syms => syms
          | .error _ => []
        else []
      .ok (some
        { id := freshId
          path := path
          name := pathFileName path
          kind := "File"
          content := content
          embedding := []
          commit_id := some commit_id
          start_line := 0
          end_line := (linesCount content : Int)
          metadata := some (.fileMeta extracted.length
            (extracted.map ExtractedSymbol.name) language)
          created_at := now
          updated_at := now })

/-- A suspect change (`SuspectChange`), score in exact rationals. -/
structure SuspectChange where
  symbol : StoredSymbolRow
  relevance_score : ℚ
  reason : String
  change_type : ChangeType
deriving DecidableEq, Repr

/-- The accumulation loop of `correlate_ci_failure` over the changed paths:
score each path, keep it only when the score exceeds 0.3 and the file content
is readable as a blob at the current commit. -/
def buildSuspects (parse : String → String → Except AstError CNode)
    (repo : RepoModel) (test_name failure_message commit_id : String)
    (changed : List (String × GitDelta)) : List SuspectChange :=
  changed.foldl
    (fun suspects pr =>
      let relevance_score := calculate_relevance pr.1 test_name failure_message
      if relevance_score > 3/10 then
        match get_symbol_at_commit_blocking parse repo 0 0 pr.1 commit_id with
        | .ok (some symbol) =>
          suspects ++ [{ symbol := symbol
                         relevance_score := relevance_score
                         reason := "File " ++ pr.1 ++
                           " was modified and may be related to test " ++ test_name
                         change_type := deltaToChangeType pr.2 }]
        | _ => suspects
      else suspects)
    []

/-- Insertion step of the descending sort on relevance scores. -/
def insertDesc (s : SuspectChange) : List SuspectChange → List SuspectChange
  | [] => [s]
  | t :: rest =>
    if s.relevance_score > t.relevance_score then s :: t :: rest
    else t :: insertDesc s rest

/-- The final `suspects.sort_by(...)` of `correlate_ci_failure`: sort in
descending order of `relevance_score` (the model agrees with the code's stable
sort up to the order of equal-score entries, which no claim concerns). -/
def sortByScoreDesc : List SuspectChange → List SuspectChange
  | [] => []
  | s :: rest => insertDesc s (sortByScoreDesc rest)

/-- The `TemporalIndex::correlate_ci_failure` (temporal.rs lines 336-441): open
the repository, resolve the current commit, and, only when a previous commit
id is supplied, diff the two trees, score and collect suspects, and sort them
by descending relevance. -/
def correlate_ci_failure (parse : String → String → Except AstError CNode)
    (repo : RepoModel) (test_name failure_message commit_id : String)
    (previous_commit_id : Option String) :
    Except TemporalError (List SuspectChange) :=
  if !repo.openOk then .error (.repositoryNotFound "failed to open repository")
  else if !repo.findCommit commit_id then .error (.git "commit lookup failed")
  else
    match previous_commit_id with
    | none => .ok (sortByScoreDesc [])
    | some prev_id =>
      if !repo.findCommit prev_id then .error (.git "commit lookup failed")
      else
        .ok (sortByScoreDesc
          (buildSuspects parse repo test_name failure_message commit_id
            (repo.diff prev_id commit_id)))

/-! ## Claim C7: symbol-kind round-trip -/

/-- C7: for every `SymbolKind` `k`, parsing the lowercase string form of `k`
yields `k` back, and every string that is not the lowercase form of some kind
parses to an error. -/
theorem c7_symbol_kind_roundtrip :
    (∀ k : SymbolKind, symbolKindFromStr k.toStr = .ok k) ∧
    (∀ s : String, (∀ k : SymbolKind, s ≠ k.toStr) →
      symbolKindFromStr s = .error ()) := by
  constructor
  · intro k; cases k <;> rfl
  · intro s h
    have h1 := h .Function
    have h2 := h .Class
    have h3 := h .Interface
    have h4 := h .Enum
    have h5 := h .Constant
    have h6 := h .Variable
    have h7 := h .TypeKind
    have h8 := h .Module
    have h9 := h .Method
    have h10 := h .Property
    have h11 := h .Namespace
    have h12 := h .Trait
    have h13 := h .Impl
    have h14 := h .Struct
    simp only [SymbolKind.toStr] at h1 h2 h3 h4 h5 h6 h7 h8 h9 h10 h11 h12 h13 h14
    unfold symbolKindFromStr
    rw [if_neg h1, if_neg h2, if_neg h3, if_neg h4, if_neg h5, if_neg h6,
      if_neg h7, if_neg h8, if_neg h9, if_neg h10, if_neg h11, if_neg h12,
      if_neg h13, if_neg h14]

/-- Witness for C7 at the concrete inputs `SymbolKind.Struct` and the
non-kind string `"banana"`. -/
theorem c7_symbol_kind_roundtrip_witness :
    symbolKindFromStr SymbolKind.Struct.toStr = .ok SymbolKind.Struct ∧
    symbolKindFromStr "banana" = .error () :=
  ⟨c7_symbol_kind_roundtrip.1 SymbolKind.Struct,
   c7_symbol_kind_roundtrip.2 "banana" (by intro k; cases k <;> decide)⟩

/-! ## Claim C3: boundary path validation -/

set_option maxRecDepth 8192 in
/-- C3 counterexample: the claim's length bound of 1024 is wrong — a path of
1025 characters is accepted by `validate_path`, whose bound is `4 * 1024`. -/
theorem c3_path_validation_counterexample :
    (String.mk (List.replicate 1025 'a')).length = 1025 ∧
    validate_path (String.mk (List.replicate 1025 'a')) = .ok () := by
  constructor
  · rw [String.length_mk, List.length_replicate]
  · rfl

/-- C3 as amended: `validate_path` accepts a path exactly when it is not
blank (not every character whitespace), its UTF-8 byte length is at most
`4 * 1024 = 4096`, and it contains no NUL, CR, or LF character. -/
theorem c3_path_validation (path : String) :
    validate_path path = .ok () ↔
      (¬ path.data.all rustIsWhitespace = true ∧
       path.utf8ByteSize ≤ 4 * 1024 ∧
       ∀ c ∈ path.data, c ≠ '\x00' ∧ c ≠ '\r' ∧ c ≠ '\n') := by
  unfold validate_path isBlank hasControlChar MAX_PATH_LENGTH
  split_ifs with hb hl hc
  · exact iff_of_false (by simp) (fun h => h.1 hb)
  · exact iff_of_false (by simp) (fun h => by have := h.2.1; omega)
  · refine iff_of_false (by simp) (fun h => ?_)
    simp only [List.any_eq_true, Bool.or_eq_true, decide_eq_true_eq] at hc
    obtain ⟨c, hmem, hcc⟩ := hc
    rcases hcc with (hcc | hcc) | hcc
    · exact (h.2.2 c hmem).1 hcc
    · exact (h.2.2 c hmem).2.1 hcc
    · exact (h.2.2 c hmem).2.2 hcc
  · refine iff_of_true rfl ⟨hb, by omega, fun c hmem => ?_⟩
    simp only [List.any_eq_true, Bool.or_eq_true, decide_eq_true_eq, not_exists,
      not_or] at hc
    have := hc c
    tauto

/-! ## Claim C4: relevance score formula, bounds, monotonicity -/

theorem relevance_foldl (fp : String) (parts : List (List Char)) (a : ℚ) :
    parts.foldl (fun sc part => if tokenMatches fp part then sc + 3/10 else sc) a =
      a + ((parts.filter (tokenMatches fp)).length : ℚ) * (3/10) := by
  induction parts generalizing a with
  | nil => simp
  | cons p rest ih =>
    by_cases hp : tokenMatches fp p
    · rw [List.foldl_cons, if_pos hp, ih]
      simp only [List.filter_cons, hp, if_pos, List.length_cons]
      push_cast
      ring
    · rw [List.foldl_cons, if_neg hp, ih]
      simp only [List.filter_cons, hp, if_neg, Bool.false_eq_true, if_false]

theorem calculate_relevance_closed (fp tn fm : String) :
    calculate_relevance fp tn fm =
      min ((matchCount fp tn : ℚ) * (3/10) + messageBonus fp fm + pathBonus fp) 1 := by
  by_cases hm : containsL fm.data fp.data <;>
    by_cases hp : (containsL fp.data "test".data || containsL fp.data "spec".data) = true <;>
      simp only [calculate_relevance, matchCount, messageBonus, pathBonus,
        relevance_foldl, hm, hp, if_pos, if_neg, Bool.false_eq_true, if_false,
        if_true, zero_add, add_zero] <;> ring_nf

theorem messageBonus_nonneg (fp fm : String) : 0 ≤ messageBonus fp fm := by
  unfold messageBonus; split_ifs <;> norm_num

theorem pathBonus_nonneg (fp : String) : 0 ≤ pathBonus fp := by
  unfold pathBonus; split_ifs <;> norm_num

theorem splitNonAlnum_append (c : Char) (hc : c.isAlphanum = false)
    (xs ys cur : List Char) :
    splitNonAlnum (xs ++ c :: ys) cur =
      splitNonAlnum xs cur ++ splitNonAlnum ys [] := by
  induction xs generalizing cur with
  | nil => simp [splitNonAlnum, hc]
  | cons d rest ih =>
    by_cases hd : d.isAlphanum <;> simp [splitNonAlnum, hd, ih]

theorem matchCount_append (p t tok : String) :
    matchCount p (t ++ "," ++ tok) = matchCount p t + matchCount p tok := by
  unfold matchCount
  have hdata : (t ++ "," ++ tok).data = t.data ++ ',' :: tok.data := by
    rw [String.data_append, String.data_append, List.append_assoc]
    rfl
  rw [hdata, splitNonAlnum_append ',' (by decide), List.filter_append,
    List.length_append]

/-- C4: the relevance score equals 0.3 per matching test-name token plus 0.5
for a failure message containing the path plus 0.2 for a test/spec path,
capped at 1; it lies in `[0, 1]`; and appending a further token to the test
name (in particular one matching the path) never decreases it. -/
theorem c4_relevance_score (p t m : String) :
    calculate_relevance p t m =
        min ((matchCount p t : ℚ) * (3/10) + messageBonus p m + pathBonus p) 1 ∧
    0 ≤ calculate_relevance p t m ∧
    calculate_relevance p t m ≤ 1 ∧
    ∀ tok : String,
      calculate_relevance p t m ≤ calculate_relevance p (t ++ "," ++ tok) m := by
  refine ⟨calculate_relevance_closed p t m, ?_, ?_, ?_⟩
  · rw [calculate_relevance_closed]
    refine le_min ?_ (by norm_num)
    have h1 := messageBonus_nonneg p m
    have h2 := pathBonus_nonneg p
    have h3 : (0 : ℚ) ≤ (matchCount p t : ℚ) * (3/10) := by positivity
    linarith
  · rw [calculate_relevance_closed]
    exact min_le_right _ _
  · intro tok
    rw [calculate_relevance_closed, calculate_relevance_closed, matchCount_append]
    refine min_le_min ?_ le_rfl
    have h : (0 : ℚ) ≤ (matchCount p tok : ℚ) * (3/10) := by positivity
    push_cast
    linarith

/-! ## Claim C6: document upsert keeps one row per path -/

/-- The updated value of a conflicting row. -/
theorem upsert_unique_row {table : List DocumentRow} {path : String}
    (huniq : table.Pairwise (fun a b => a.path ≠ b.path))
    {r : DocumentRow} (hr : r ∈ table) (hpath : r.path = path) :
    ∀ q ∈ table, q.path = path → q = r := by
  induction table with
  | nil => cases hr
  | cons x rest ih =>
    rcases List.pairwise_cons.mp huniq with ⟨hx, hrest⟩
    intro q hq hqpath
    rcases List.mem_cons.mp hr with hr1 | hr1 <;>
      rcases List.mem_cons.mp hq with hq1 | hq1
    · rw [hq1, hr1]
    · subst hr1
      exact absurd (hqpath.trans hpath.symm) (hx q hq1).symm
    · subst hq1
      exact absurd (hpath.trans hqpath.symm) (hx r hr1).symm
    · exact ih hrest hr1 q hq1 hqpath

/-- C6: the documents table keeps at most one row per path across every
`index_document` call, and a second call on an existing path replaces content,
embedding and commit id in place, advances `updated_at` to a strictly later
time (the second call's clock reading, assumed later), and leaves
`created_at`, the row id and the row count unchanged. -/
theorem c6_document_upsert (embed : String → Except EmbeddingError (List ℚ))
    (table : List DocumentRow)
    (huniq : table.Pairwise (fun a b => a.path ≠ b.path)) :
    (∀ path c k id t table2 rid,
      index_document embed table path c k id t = .ok (table2, rid) →
      table2.Pairwise (fun a b => a.path ≠ b.path)) ∧
    (∀ (r : DocumentRow) path c2 k2 id2 t2 emb2, r ∈ table → r.path = path →
      embed c2 = .ok emb2 → r.updated_at < t2 →
      ∃ table2,
        index_document embed table path c2 k2 id2 t2 = .ok (table2, id2) ∧
        table2.length = table.length ∧
        (∀ q ∈ table2, q.path = path →
          q.content = c2 ∧ q.embedding = emb2 ∧ q.commit_id = k2 ∧
          q.updated_at = t2 ∧ q.created_at = r.created_at ∧ q.id = r.id ∧
          r.updated_at < q.updated_at) ∧
        (∀ q ∈ table, q.path ≠ path → q ∈ table2)) := by
  constructor
  · intro path c k id t table2 rid hcall
    cases hembed : embed c with
    | error e => simp only [index_document, hembed] at hcall; cases hcall
    | ok emb =>
      simp only [index_document, hembed] at hcall
      by_cases hany : table.any (fun r => r.path = path)
      · rw [if_pos hany] at hcall
        cases hcall
        refine List.Pairwise.map _ ?_ huniq
        intro a b hab
        by_cases ha : a.path = path <;> by_cases hb : b.path = path <;>
          simp [ha, hb] at hab ⊢ <;> exact hab
      · rw [if_neg hany] at hcall
        cases hcall
        rw [List.pairwise_append]
        refine ⟨huniq, List.pairwise_singleton _ _, ?_⟩
        intro a ha b hb
        rw [List.mem_singleton] at hb
        subst hb
        simp only [List.any_eq_true, decide_eq_true_eq, not_exists] at hany
        intro hcontra
        exact (hany a) ⟨ha, hcontra⟩
  · intro r path c2 k2 id2 t2 emb2 hr hpath hembed hclock
    have hany : table.any (fun q => q.path = path) = true := by
      rw [List.any_eq_true]
      exact ⟨r, hr, by simp [hpath]⟩
    refine ⟨table.map (fun q =>
      if q.path = path then
        { q with content := c2, embedding := emb2,
                 commit_id := k2, updated_at := t2 }
      else q), ?_, ?_, ?_, ?_⟩
    · simp only [index_document, hembed]
      rw [if_pos hany]
    · simp
    · intro q hq hqpath
      rcases List.mem_map.mp hq with ⟨q0, hq0, hq0eq⟩
      by_cases h0 : q0.path = path
      · have hq0r : q0 = r := upsert_unique_row huniq hr hpath q0 hq0 h0
        subst hq0r
        rw [if_pos h0] at hq0eq
        rw [← hq0eq]
        exact ⟨rfl, rfl, rfl, rfl, rfl, rfl, hclock⟩
      · rw [if_neg h0] at hq0eq
        rw [← hq0eq] at hqpath
        exact absurd hqpath h0
    · intro q hq hqpath
      refine List.mem_map.mpr ⟨q, hq, ?_⟩
      rw [if_neg hqpath]

/-- Witness for C6: a one-row table re-indexed at a later clock tick. -/
theorem c6_document_upsert_witness :
    ∃ table2,
      index_document (fun _ => .ok [1])
        [{ id := 7, path := "src/lib.rs", content := "A", embedding := [0],
           commit_id := some "aa", created_at := 1, updated_at := 1 }]
        "src/lib.rs" "B" (some "bb") 9 5 = .ok (table2, 9) ∧
      table2.length = 1 ∧
      (∀ q ∈ table2, q.path = "src/lib.rs" →
        q.content = "B" ∧ q.embedding = [1] ∧ q.commit_id = some "bb" ∧
        q.updated_at = 5 ∧ q.created_at = 1 ∧ q.id = 7 ∧ (1 : Nat) < q.updated_at) ∧
      (∀ q ∈ [{ id := 7, path := "src/lib.rs", content := "A", embedding := [0],
                commit_id := some "aa", created_at := 1,
                updated_at := 1 : DocumentRow }],
        q.path ≠ "src/lib.rs" → q ∈ table2) := by
  have h := (c6_document_upsert (fun _ => .ok [1])
    [{ id := 7, path := "src/lib.rs", content := "A", embedding := [0],
       commit_id := some "aa", created_at := 1, updated_at := 1 }]
    (List.pairwise_singleton _ _)).2
    { id := 7, path := "src/lib.rs", content := "A", embedding := [0],
      commit_id := some "aa", created_at := 1, updated_at := 1 }
    "src/lib.rs" "B" (some "bb") 9 5 [1]
    (List.mem_singleton.mpr rfl) rfl rfl (by norm_num)
  exact h

/-! ## Claim C1: the embedding manager has no whitespace short-circuit -/

/-- C1 counterexample: with the orchestrator provider answering a constant
384-vector of ones, `EmbeddingManager::embed` on the whitespace text `" "`
invokes the provider (once) and returns that vector — not the zero vector —
and on the non-empty text `"hello"` returns a vector whose squared norm, 384,
exceeds `(1 + 1e-6)^2`; the manager checks neither. -/
theorem c1_embed_counterexample :
    (((EmbeddingManager.orchestrator
        (fun _ => .ok (List.replicate 384 (1 : ℚ)))).embed " ").1
      = .ok (List.replicate 384 (1 : ℚ))) ∧
    (((EmbeddingManager.orchestrator
        (fun _ => .ok (List.replicate 384 (1 : ℚ)))).embed " ").2 = 1) ∧
    List.replicate 384 (1 : ℚ) ≠ zeroVec EMBEDDING_DIM ∧
    isBlank " " = true ∧
    (((EmbeddingManager.orchestrator
        (fun _ => .ok (List.replicate 384 (1 : ℚ)))).embed "hello").1
      = .ok (List.replicate 384 (1 : ℚ))) ∧
    isBlank "hello" = false ∧
    normSq (List.replicate 384 (1 : ℚ)) > (1 + 1/1000000)^2 := by
  refine ⟨rfl, rfl, by decide, by decide, rfl, by decide, ?_⟩
  have h : normSq (List.replicate 384 (1 : ℚ)) = 384 := by
    rw [normSq, List.map_replicate, List.sum_replicate, nsmul_eq_mul]
    norm_num
  rw [h]
  norm_num

/-- C1 as amended: `EmbeddingManager::embed` dispatches every text — empty,
whitespace, or not — to the selected provider exactly once and returns the
provider's result unchanged; a successful orchestrator embed has length
exactly `EMBEDDING_DIM = 384` (the dimension is checked, the norm is not). -/
theorem c1_embed_dispatch :
    (∀ (m : EmbeddingManager) (text : String), (m.embed text).2 = 1) ∧
    (∀ (f : String → Except EmbeddingError (List ℚ)) (text : String),
      (EmbeddingManager.localProvider f).embed text = (f text, 1)) ∧
    (∀ (respond : String → Except EmbeddingError (List ℚ)) (text : String),
      ((EmbeddingManager.orchestrator respond).embed text).1
        = orchestratorEmbed respond text) ∧
    (∀ (respond : String → Except EmbeddingError (List ℚ)) (text : String)
        (v : List ℚ),
      ((EmbeddingManager.orchestrator respond).embed text).1 = .ok v →
      v.length = EMBEDDING_DIM) := by
  refine ⟨fun m text => ?_, fun f text => rfl, fun respond text => rfl,
    fun respond text v hv => ?_⟩
  · cases m <;> rfl
  · cases hresp : respond text with
    | error e =>
      simp only [EmbeddingManager.embed, orchestratorEmbed, hresp] at hv
      cases hv
    | ok emb =>
      simp only [EmbeddingManager.embed, orchestratorEmbed, hresp] at hv
      by_cases hlen : emb.length = EMBEDDING_DIM
      · rw [if_pos hlen] at hv
        cases hv
        exact hlen
      · rw [if_neg hlen] at hv
        cases hv

/-- Witness for C1's amended dimension clause at a concrete provider and
text. -/
theorem c1_embed_dispatch_witness :
    (zeroVec 384).length = EMBEDDING_DIM :=
  c1_embed_dispatch.2.2.2 (fun _ => .ok (zeroVec 384)) "query" (zeroVec 384)
    (by rfl)

/-! ## Claim C2: which matched nodes descend into their body -/

theorem extract_interface_children (prevs : List CNode) (n : CNode)
    (s : ExtractedSymbol) (h : extract_interface prevs n = some s) :
    s.children = [] := by
  unfold extract_interface at h
  cases hn : n.childByFieldName "name" with
  | none => rw [hn] at h; cases h
  | some nameNode => rw [hn] at h; cases h; rfl

theorem extract_enum_children (prevs : List CNode) (n : CNode)
    (s : ExtractedSymbol) (h : extract_enum prevs n = some s) :
    s.children = [] := by
  unfold extract_enum at h
  cases hn : n.childByFieldName "name" with
  | none => rw [hn] at h; cases h
  | some nameNode => rw [hn] at h; cases h; rfl

theorem extract_method_children (prevs : List CNode) (n : CNode)
    (s : ExtractedSymbol) (h : extract_method prevs n = some s) :
    s.children = [] := by
  unfold extract_method at h
  cases hn : n.childByFieldName "name" with
  | none => rw [hn] at h; cases h
  | some nameNode => rw [hn] at h; cases h; rfl

theorem extract_variable_declarator_children (pp : List CNode) (n : CNode)
    (s : ExtractedSymbol) (h : extract_variable_declarator pp n = some s) :
    s.children = [] := by
  unfold extract_variable_declarator at h
  cases hn : n.childByFieldName "name" with
  | none => rw [hn] at h; cases h
  | some nameNode => rw [hn] at h; cases h; rfl

theorem extract_struct_children (prevs : List CNode) (n : CNode)
    (s : ExtractedSymbol) (h : extract_struct prevs n = some s) :
    s.children = [] := by
  unfold extract_struct at h
  cases hn : n.childByFieldName "name" with
  | none => rw [hn] at h; cases h
  | some nameNode => rw [hn] at h; cases h; rfl

theorem extract_trait_children (prevs : List CNode) (n : CNode)
    (s : ExtractedSymbol) (h : extract_trait prevs n = some s) :
    s.children = [] := by
  unfold extract_trait at h
  cases hn : n.childByFieldName "name" with
  | none => rw [hn] at h; cases h
  | some nameNode => rw [hn] at h; cases h; rfl

theorem extract_impl_children (prevs : List CNode) (n : CNode)
    (s : ExtractedSymbol) (h : extract_impl prevs n = some s) :
    s.children = [] := by
  unfold extract_impl at h
  cases hn : n.childByFieldName "type" with
  | none => rw [hn] at h; cases h
  | some typeNode => rw [hn] at h; cases h; rfl

theorem extract_module_children (prevs : List CNode) (n : CNode)
    (s : ExtractedSymbol) (h : extract_module prevs n = some s) :
    s.children = [] := by
  unfold extract_module at h
  cases hn : n.childByFieldName "name" with
  | none => rw [hn] at h; cases h
  | some nameNode => rw [hn] at h; cases h; rfl

/-- A matched function's children come exactly from the `body` field. -/
theorem extract_function_children (prevs : List CNode) (n : CNode)
    (s : ExtractedSymbol) (h : extract_function prevs n = some s) :
    (findFieldWithPrevs "body" [] n.children = none → s.children = []) ∧
    (∀ bodyPrevs body,
      findFieldWithPrevs "body" [] n.children = some (bodyPrevs, body) →
      s.children = extractBody bodyPrevs [] body.children) := by
  unfold extract_function at h
  cases hn : n.childByFieldName "name" with
  | none => rw [hn] at h; cases h
  | some nameNode =>
    rw [hn] at h
    cases h
    constructor
    · intro hb
      simp only [ExtractedSymbol.children]
      split
      · rfl
      · rename_i bp2 body2 heq
        rw [hb] at heq; cases heq
    · intro bp body hb
      simp only [ExtractedSymbol.children]
      split
      · rename_i heq
        rw [hb] at heq; cases heq
      · rename_i bp2 body2 heq
        rw [hb] at heq
        cases heq
        rfl

/-- A matched class's children come exactly from the `body` field. -/
theorem extract_class_children (prevs : List CNode) (n : CNode)
    (s : ExtractedSymbol) (h : extract_class prevs n = some s) :
    (findFieldWithPrevs "body" [] n.children = none → s.children = []) ∧
    (∀ bodyPrevs body,
      findFieldWithPrevs "body" [] n.children = some (bodyPrevs, body) →
      s.children = extractClassBody bodyPrevs [] body.children) := by
  unfold extract_class at h
  cases hn : n.childByFieldName "name" with
  | none => rw [hn] at h; cases h
  | some nameNode =>
    rw [hn] at h
    cases h
    constructor
    · intro hb
      simp only [ExtractedSymbol.children]
      split
      · rfl
      · rename_i bp2 body2 heq
        rw [hb] at heq; cases heq
    · intro bp body hb
      simp only [ExtractedSymbol.children]
      split
      · rename_i heq
        rw [hb] at heq; cases heq
      · rename_i bp2 body2 heq
        rw [hb] at heq
        cases heq
        rfl

/-- C2 as amended: only function and class matches descend into the `body`
field; an interface, enum, method, variable declarator, struct, trait, impl or
module match yields a symbol with no children (its nested declarations are not
attached); a matched function's (class's) children are exactly the symbols
extracted from the children of its `body` field; and once a node is matched,
`visit` emits just that symbol, descending no further. -/
theorem c2_extractor_descent (pp prevs : List CNode) (n : CNode)
    (s : ExtractedSymbol) :
    ((n.kind = "interface_declaration" ∨ n.kind = "enum_declaration" ∨
      n.kind = "enum_item" ∨ n.kind = "method_definition" ∨
      n.kind = "variable_declarator" ∨ n.kind = "struct_item" ∨
      n.kind = "trait_item" ∨ n.kind = "impl_item" ∨ n.kind = "mod_item") →
      extractSymbol pp prevs n = some s → s.children = []) ∧
    (extractSymbol pp prevs n = some s → visit pp prevs n = [s]) ∧
    ((n.kind = "function_declaration" ∨ n.kind = "function" ∨
      n.kind = "function_item") →
      extractSymbol pp prevs n = some s →
      (findFieldWithPrevs "body" [] n.children = none → s.children = []) ∧
      (∀ bodyPrevs body,
        findFieldWithPrevs "body" [] n.children = some (bodyPrevs, body) →
        s.children = extractBody bodyPrevs [] body.children)) ∧
    ((n.kind = "class_declaration" ∨ n.kind = "class") →
      extractSymbol pp prevs n = some s →
      (findFieldWithPrevs "body" [] n.children = none → s.children = []) ∧
      (∀ bodyPrevs body,
        findFieldWithPrevs "body" [] n.children = some (bodyPrevs, body) →
        s.children = extractClassBody bodyPrevs [] body.children)) := by
  refine ⟨?_, ?_, ?_, ?_⟩
  · intro hk h
    unfold extractSymbol at h
    rcases hk with hk | hk | hk | hk | hk | hk | hk | hk | hk <;>
      rw [hk] at h <;> simp only [] at h
    · exact extract_interface_children prevs n s h
    · exact extract_enum_children prevs n s h
    · exact extract_enum_children prevs n s h
    · exact extract_method_children prevs n s h
    · exact extract_variable_declarator_children pp n s h
    · exact extract_struct_children prevs n s h
    · exact extract_trait_children prevs n s h
    · exact extract_impl_children prevs n s h
    · exact extract_module_children prevs n s h
  · intro h
    unfold visit
    rw [h]
  · intro hk h
    unfold extractSymbol at h
    rcases hk with hk | hk | hk <;> rw [hk] at h <;> simp only [] at h <;>
      exact extract_function_children prevs n s h
  · intro hk h
    unfold extractSymbol at h
    rcases hk with hk | hk <;> rw [hk] at h <;> simp only [] at h <;>
      exact extract_class_children prevs n s h

/-- A zero range for sample trees. -/
def rng0 : SourceRange := ⟨⟨0, 0⟩, ⟨0, 0⟩⟩

/-- A Rust `fn f() {}` item node. -/
def sampleFnItem : CNode :=
  .mk "function_item" "fn f()" rng0
    [(some "name", .mk "identifier" "f" rng0 []),
     (some "body", .mk "block" "" rng0 [])]

/-- A Rust `mod m` node whose body declares `sampleFnItem`. -/
def sampleModItem : CNode :=
  .mk "mod_item" "mod m" rng0
    [(some "name", .mk "identifier" "m" rng0 []),
     (some "body", .mk "declaration_list" "" rng0 [(none, sampleFnItem)])]

/-- C2 counterexample: a module whose body holds a declarative `function_item`
(which `extractSymbol` does recognise on its own) is extracted as a `Module`
symbol with no children — the extractor does not descend into the module's
body, contradicting the claim. -/
theorem c2_extractor_descent_counterexample :
    (visit [] [] sampleModItem).map
        (fun s => (s.kind, s.children.length)) = [(SymbolKind.Module, 0)] ∧
    (extractSymbol [] [] sampleFnItem).isSome = true := by
  constructor
  · simp [visit, extractSymbol, extract_module, sampleModItem, CNode.kind,
      CNode.childByFieldName, CNode.children, findFieldWithPrevs, CNode.text,
      CNode.range, extractDocComment, collectDocComments, ExtractedSymbol.kind,
      ExtractedSymbol.children]
  · simp [extractSymbol, extract_function, sampleFnItem, CNode.kind,
      CNode.childByFieldName, CNode.children, findFieldWithPrevs, CNode.text,
      CNode.range, extractDocComment, collectDocComments, extractBody]

/-- Witness for C2's amended theorem at the concrete module node. -/
theorem c2_extractor_descent_witness :
    (ExtractedSymbol.mk "m" SymbolKind.Module rng0 "mod m" none []).children
      = [] := by
  refine (c2_extractor_descent [] [] sampleModItem
    (ExtractedSymbol.mk "m" SymbolKind.Module rng0 "mod m" none [])).1 ?_ ?_
  · simp [sampleModItem, CNode.kind]
  · simp [extractSymbol, extract_module, sampleModItem, CNode.kind,
      CNode.childByFieldName, CNode.children, findFieldWithPrevs, CNode.text,
      CNode.range, extractDocComment, collectDocComments]

/-! ## Claims C5 and C9: CI correlation output shape -/

/-- What membership in the suspect accumulation implies, generalised over the
initial accumulator. -/
theorem buildSuspects_mem_aux (parse : String → String → Except AstError CNode)
    (repo : RepoModel) (tn fm cid : String) :
    ∀ (changed : List (String × GitDelta)) (acc : List SuspectChange)
      (s : SuspectChange),
      s ∈ changed.foldl
        (fun suspects pr =>
          let relevance_score := calculate_relevance pr.1 tn fm
          if relevance_score > 3/10 then
            match get_symbol_at_commit_blocking parse repo 0 0 pr.1 cid with
            | .ok (some symbol) =>
              suspects ++ [{ symbol := symbol
                             relevance_score := relevance_score
                             reason := "File " ++ pr.1 ++
                               " was modified and may be related to test " ++ tn
                             change_type := deltaToChangeType pr.2 }]
            | _ => suspects
          else suspects) acc →
      s ∈ acc ∨
        ∃ pr, pr ∈ changed ∧ ∃ sym,
          s.relevance_score = calculate_relevance pr.1 tn fm ∧
          s.relevance_score > 3/10 ∧
          get_symbol_at_commit_blocking parse repo 0 0 pr.1 cid = .ok (some sym) ∧
          s.symbol = sym ∧ s.change_type = deltaToChangeType pr.2 := by
  intro changed
  induction changed with
  | nil => intro acc s h; exact Or.inl h
  | cons pr rest ih =>
    intro acc s h
    rw [List.foldl_cons] at h
    rcases ih _ s h with hacc | hrest
    · by_cases hsc : calculate_relevance pr.1 tn fm > 3/10
      · cases hget : get_symbol_at_commit_blocking parse repo 0 0 pr.1 cid with
        | error e =>
          rw [if_pos hsc, hget] at hacc
          exact Or.inl hacc
        | ok osym =>
          cases osym with
          | none =>
            rw [if_pos hsc, hget] at hacc
            exact Or.inl hacc
          | some sym =>
            rw [if_pos hsc, hget] at hacc
            rcases List.mem_append.mp hacc with h1 | h1
            · exact Or.inl h1
            · rw [List.mem_singleton] at h1
              subst h1
              exact Or.inr ⟨pr, List.mem_cons_self _ _,
                sym, rfl, hsc, hget, rfl, rfl⟩
      · rw [if_neg hsc] at hacc
        exact Or.inl hacc
    · obtain ⟨pr2, hpr2, rest2⟩ := hrest
      exact Or.inr ⟨pr2, List.mem_cons_of_mem _ hpr2, rest2⟩

/-- Membership in `buildSuspects` forces a changed path that scores above the
threshold and is readable at the current commit. -/
theorem buildSuspects_mem (parse : String → String → Except AstError CNode)
    (repo : RepoModel) (tn fm cid : String)
    (changed : List (String × GitDelta)) (s : SuspectChange)
    (h : s ∈ buildSuspects parse repo tn fm cid changed) :
    ∃ pr, pr ∈ changed ∧ ∃ sym,
      s.relevance_score = calculate_relevance pr.1 tn fm ∧
      s.relevance_score > 3/10 ∧
      get_symbol_at_commit_blocking parse repo 0 0 pr.1 cid = .ok (some sym) ∧
      s.symbol = sym ∧ s.change_type = deltaToChangeType pr.2 := by
  unfold buildSuspects at h
  rcases buildSuspects_mem_aux parse repo tn fm cid changed [] s h with h1 | h1
  · cases h1
  · exact h1

/-- A successful file-at-commit lookup pins the symbol's path and needs a blob
entry at that path in the commit's tree. -/
theorem get_symbol_ok_some (parse : String → String → Except AstError CNode)
    (repo : RepoModel) (i t : Nat) (p c : String) (sym : StoredSymbolRow)
    (h : get_symbol_at_commit_blocking parse repo i t p c = .ok (some sym)) :
    sym.path = p ∧ ∃ content, repo.entry c p = some (.blob content) := by
  unfold get_symbol_at_commit_blocking at h
  cases hfc : repo.findCommit c with
  | false => rw [hfc] at h; cases h
  | true =>
    rw [hfc] at h
    simp only [Bool.not_true, Bool.false_eq_true, if_false] at h
    cases hentry : repo.entry c p with
    | none => rw [hentry] at h; cases h
    | some obj =>
      rw [hentry] at h
      cases obj with
      | nonBlob => cases h
      | blob content =>
        simp only [] at h
        cases h
        exact ⟨rfl, content, rfl⟩

/-- Membership in the insertion step of the descending sort. -/
theorem insertDesc_mem (s x : SuspectChange) :
    ∀ l : List SuspectChange, x ∈ insertDesc s l ↔ x = s ∨ x ∈ l := by
  intro l
  induction l with
  | nil => simp [insertDesc]
  | cons t rest ih =>
    unfold insertDesc
    by_cases hc : s.relevance_score > t.relevance_score
    · rw [if_pos hc]
      simp only [List.mem_cons]
    · rw [if_neg hc]
      simp only [List.mem_cons, ih]
      tauto

/-- The descending sort preserves membership. -/
theorem sortByScoreDesc_mem (x : SuspectChange) :
    ∀ l : List SuspectChange, x ∈ sortByScoreDesc l ↔ x ∈ l := by
  intro l
  induction l with
  | nil => simp [sortByScoreDesc]
  | cons s rest ih =>
    unfold sortByScoreDesc
    rw [insertDesc_mem, ih, List.mem_cons]

/-- Inserting into a descending-sorted list keeps it descending-sorted. -/
theorem insertDesc_sorted (s : SuspectChange) :
    ∀ l : List SuspectChange,
      l.Pairwise (fun a b => a.relevance_score ≥ b.relevance_score) →
      (insertDesc s l).Pairwise (fun a b => a.relevance_score ≥ b.relevance_score) := by
  intro l
  induction l with
  | nil => intro _; simp [insertDesc]
  | cons t rest ih =>
    intro hsort
    rcases List.pairwise_cons.mp hsort with ⟨ht, hrest⟩
    unfold insertDesc
    by_cases hc : s.relevance_score > t.relevance_score
    · rw [if_pos hc]
      refine List.pairwise_cons.mpr ⟨?_, hsort⟩
      intro b hb
      rcases List.mem_cons.mp hb with hb1 | hb1
      · subst hb1; exact le_of_lt hc
      · exact le_trans (ht b hb1) (le_of_lt hc)
    · rw [if_neg hc]
      refine List.pairwise_cons.mpr ⟨?_, ih hrest⟩
      intro b hb
      rcases (insertDesc_mem s b rest).mp hb with hb1 | hb1
      · subst hb1; exact le_of_not_gt hc
      · exact ht b hb1

/-- The final sort is descending-sorted on relevance scores. -/
theorem sortByScoreDesc_sorted :
    ∀ l : List SuspectChange,
      (sortByScoreDesc l).Pairwise
        (fun a b => a.relevance_score ≥ b.relevance_score) := by
  intro l
  induction l with
  | nil => simp [sortByScoreDesc]
  | cons s rest ih => exact insertDesc_sorted s _ ih

/-- C5 counterexample: with an absent previous commit id but a current commit
id that does not resolve, `correlate_ci_failure` returns an error, not the
empty list. -/
theorem c5_correlate_counterexample :
    correlate_ci_failure (fun _ _ => .error (.parseFailed "unused"))
      ⟨true, fun _ => false, fun _ _ => [], fun _ _ => none⟩
      "test_foo" "boom" "zz" none
      = .error (.git "commit lookup failed") ∧
    .error (.git "commit lookup failed")
      ≠ (.ok [] : Except TemporalError (List SuspectChange)) := by
  constructor
  · rfl
  · intro h; cases h

/-- C5 as amended: provided the repository opens and the current commit id
resolves, an absent previous commit id yields the empty list; and whenever
`correlate_ci_failure` returns a list, every element scores strictly above 0.3
and the list is sorted in descending order of relevance score. -/
theorem c5_correlate_shape (parse : String → String → Except AstError CNode)
    (repo : RepoModel) (tn fm cid : String) :
    (repo.openOk = true → repo.findCommit cid = true →
      correlate_ci_failure parse repo tn fm cid none = .ok []) ∧
    (∀ prev res,
      correlate_ci_failure parse repo tn fm cid (some prev) = .ok res →
      (∀ s ∈ res, s.relevance_score > 3/10) ∧
      res.Pairwise (fun a b => a.relevance_score ≥ b.relevance_score)) := by
  constructor
  · intro hopen hfind
    unfold correlate_ci_failure
    rw [hopen, hfind]
    rfl
  · intro prev res hres
    unfold correlate_ci_failure at hres
    cases hopen : repo.openOk with
    | false => rw [hopen] at hres; cases hres
    | true =>
      rw [hopen] at hres
      simp only [Bool.not_true, Bool.false_eq_true, if_false] at hres
      cases hfind : repo.findCommit cid with
      | false => rw [hfind] at hres; cases hres
      | true =>
        rw [hfind] at hres
        simp only [Bool.not_true, Bool.false_eq_true, if_false] at hres
        cases hprev : repo.findCommit prev with
        | false => rw [hprev] at hres; cases hres
        | true =>
          rw [hprev] at hres
          simp only [Bool.not_true, Bool.false_eq_true, if_false] at hres
          cases hres
          constructor
          · intro s hs
            rw [sortByScoreDesc_mem] at hs
            obtain ⟨pr, _, sym, _, hsc, _⟩ :=
              buildSuspects_mem parse repo tn fm cid _ s hs
            exact hsc
          · exact sortByScoreDesc_sorted _

/-- Witness for C5 at a concrete repository whose commits resolve. -/
theorem c5_correlate_shape_witness :
    correlate_ci_failure (fun _ _ => .error (.parseFailed "unused"))
      ⟨true, fun _ => true, fun _ _ => [], fun _ _ => none⟩
      "test_foo" "boom" "aa" none = .ok [] :=
  (c5_correlate_shape (fun _ _ => .error (.parseFailed "unused"))
    ⟨true, fun _ => true, fun _ _ => [], fun _ _ => none⟩
    "test_foo" "boom" "aa").1 rfl rfl

/-- C9: a changed path that is not readable as a blob at the current commit is
omitted from the suspect list regardless of score; in particular, when deleted
paths are absent from the current tree (as git guarantees), no returned
suspect carries change type `Deleted`. -/
theorem c9_deleted_omitted (parse : String → String → Except AstError CNode)
    (repo : RepoModel) (tn fm cid prev : String) (res : List SuspectChange)
    (hres : correlate_ci_failure parse repo tn fm cid (some prev) = .ok res) :
    (∀ p, repo.entry cid p = none → ∀ s ∈ res, s.symbol.path ≠ p) ∧
    ((∀ p d, (p, d) ∈ repo.diff prev cid → d = GitDelta.Deleted →
        repo.entry cid p = none) →
      ∀ s ∈ res, s.change_type ≠ ChangeType.Deleted) := by
  unfold correlate_ci_failure at hres
  cases hopen : repo.openOk with
  | false => rw [hopen] at hres; cases hres
  | true =>
    rw [hopen] at hres
    simp only [Bool.not_true, Bool.false_eq_true, if_false] at hres
    cases hfind : repo.findCommit cid with
    | false => rw [hfind] at hres; cases hres
    | true =>
      rw [hfind] at hres
      simp only [Bool.not_true, Bool.false_eq_true, if_false] at hres
      cases hprev : repo.findCommit prev with
      | false => rw [hprev] at hres; cases hres
      | true =>
        rw [hprev] at hres
        simp only [Bool.not_true, Bool.false_eq_true, if_false] at hres
        cases hres
        constructor
        · intro p hp s hs
          rw [sortByScoreDesc_mem] at hs
          obtain ⟨pr, hpr, sym, _, _, hget, hsym, _⟩ :=
            buildSuspects_mem parse repo tn fm cid _ s hs
          obtain ⟨hpath, content, hentry⟩ :=
            get_symbol_ok_some parse repo 0 0 pr.1 cid sym hget
          intro hcontra
          rw [hsym, hpath] at hcontra
          rw [hcontra] at hentry
          rw [hp] at hentry
          cases hentry
        · intro hdel s hs
          rw [sortByScoreDesc_mem] at hs
          obtain ⟨pr, hpr, sym, _, _, hget, _, hct⟩ :=
            buildSuspects_mem parse repo tn fm cid _ s hs
          obtain ⟨_, content, hentry⟩ :=
            get_symbol_ok_some parse repo 0 0 pr.1 cid sym hget
          intro hcontra
          rw [hct] at hcontra
          have hd : pr.2 = GitDelta.Deleted := by
            cases hpr2 : pr.2 <;> rw [hpr2] at hcontra <;>
              first | rfl | cases hcontra
          have := hdel pr.1 pr.2 (by rwa [← Prod.mk.eta (p := pr)] at hpr) hd
          rw [this] at hentry
          cases hentry

/-- Witness for C9: one modified text file readable at the current commit. -/
theorem c9_deleted_omitted_witness :
    (sortByScoreDesc
      (buildSuspects (fun _ _ => .error (.parseFailed "unused"))
        ⟨true, fun _ => true, fun _ _ => [("src/foo.txt", GitDelta.Modified)],
          fun _ p => if p = "src/foo.txt" then some (.blob "hello") else none⟩
        "test_foo" "src/foo.txt" "bb" [("src/foo.txt", GitDelta.Modified)])).all
      (fun s => s.change_type ≠ ChangeType.Deleted) = true := by
  have h := (c9_deleted_omitted (fun _ _ => .error (.parseFailed "unused"))
    ⟨true, fun _ => true, fun _ _ => [("src/foo.txt", GitDelta.Modified)],
      fun _ p => if p = "src/foo.txt" then some (.blob "hello") else none⟩
    "test_foo" "src/foo.txt" "bb" "aa" _ rfl).2
    (by
      intro p d hmem hd
      rw [List.mem_singleton] at hmem
      cases hmem
      cases hd)
  rw [List.all_eq_true]
  intro s hs
  exact decide_eq_true (h s hs)

/-! ## Claim C10: hydration tolerates malformed kind strings -/

/-- Hydration steps that never touch an id leave its `symbols` entry
unchanged. -/
theorem load_foldl_untouched (rest : List StoredSymbolRow) (init : RegistryMaps)
    (i : Nat) (hni : i ∉ rest.map StoredSymbolRow.id) :
    (rest.foldl
      (fun maps ss =>
        let sym := hydrateSymbol ss
        { index := mapInsert maps.index sym.key ss.id
          symbols := mapInsert maps.symbols ss.id sym })
      init).symbols i = init.symbols i := by
  induction rest generalizing init with
  | nil => rfl
  | cons a rest ih =>
    simp only [List.map_cons, List.mem_cons, not_or] at hni
    rw [List.foldl_cons, ih _ hni.2]
    simp only [mapInsert]
    rw [if_neg hni.1]

/-- Every stored row with a unique id ends up in the hydrated `symbols` map
under its own id (form generalised over the initial state). -/
theorem load_foldl_generalized (stored : List StoredSymbolRow)
    (init : RegistryMaps) (ss : StoredSymbolRow) (hmem : ss ∈ stored)
    (hids : (stored.map StoredSymbolRow.id).Nodup) :
    (stored.foldl
      (fun maps ss =>
        let sym := hydrateSymbol ss
        { index := mapInsert maps.index sym.key ss.id
          symbols := mapInsert maps.symbols ss.id sym })
      init).symbols ss.id = some (hydrateSymbol ss) := by
  induction stored generalizing init with
  | nil => cases hmem
  | cons a rest ih =>
    simp only [List.map_cons, List.nodup_cons] at hids
    rcases List.mem_cons.mp hmem with h1 | h1
    · subst h1
      rw [List.foldl_cons, load_foldl_untouched rest _ ss.id hids.1]
      simp [mapInsert]
    · rw [List.foldl_cons]
      exact ih _ h1 hids.2

/-- Every stored row with a unique id ends up in the hydrated `symbols` map
under its own id. -/
theorem load_from_storage_mem (stored : List StoredSymbolRow)
    (ss : StoredSymbolRow) (hmem : ss ∈ stored)
    (hids : (stored.map StoredSymbolRow.id).Nodup) :
    (load_from_storage stored).symbols ss.id = some (hydrateSymbol ss) :=
  load_foldl_generalized stored RegistryMaps.empty ss hmem hids

/-- C10: a stored symbol whose kind string does not parse is not rejected
during hydration — it is registered under kind `Function`, its in-memory key
disagreeing with the persisted kind string — and hydration is total. -/
theorem c10_hydration_malformed_kind (stored : List StoredSymbolRow)
    (ss : StoredSymbolRow) (hmem : ss ∈ stored)
    (hids : (stored.map StoredSymbolRow.id).Nodup)
    (hbad : symbolKindFromStr ss.kind = .error ()) :
    ∃ sym, (load_from_storage stored).symbols ss.id = some sym ∧
      sym.key.kind = SymbolKind.Function ∧
      sym.key.path = ss.path ∧ sym.key.name = ss.name ∧
      sym.key.kind.toStr ≠ ss.kind := by
  refine ⟨hydrateSymbol ss, load_from_storage_mem stored ss hmem hids, ?_, rfl, rfl, ?_⟩
  · simp [hydrateSymbol, hbad]
  · simp only [hydrateSymbol, hbad]
    intro hcontra
    rw [← hcontra] at hbad
    cases hbad

/-- Witness for C10: one stored row with unparseable kind `"garbage"`. -/
theorem c10_hydration_malformed_kind_witness :
    ∃ sym,
      (load_from_storage
        [{ id := 3, path := "src/a.rs", name := "x", kind := "garbage",
           content := "", embedding := [], commit_id := none, start_line := 0,
           end_line := 0, metadata := none, created_at := 0,
           updated_at := 0 }]).symbols 3 = some sym ∧
      sym.key.kind = SymbolKind.Function ∧
      sym.key.path = "src/a.rs" ∧ sym.key.name = "x" ∧
      sym.key.kind.toStr ≠ "garbage" :=
  c10_hydration_malformed_kind
    [{ id := 3, path := "src/a.rs", name := "x", kind := "garbage",
       content := "", embedding := [], commit_id := none, start_line := 0,
       end_line := 0, metadata := none, created_at := 0, updated_at := 0 }]
    { id := 3, path := "src/a.rs", name := "x", kind := "garbage",
      content := "", embedding := [], commit_id := none, start_line := 0,
      end_line := 0, metadata := none, created_at := 0, updated_at := 0 }
    (List.mem_singleton.mpr rfl) (by decide) rfl

/-! ## Claim C8: the id returned for a re-index identifies no stored row -/

/-- C8: when `index_document` hits the conflict branch, the persisted row
keeps its old id while the freshly generated id is returned, so the returned
id matches no stored document. -/
theorem c8_returned_id_dangling (embed : String → Except EmbeddingError (List ℚ))
    (table : List DocumentRow) (r : DocumentRow) (path c2 : String)
    (k2 : Option String) (id2 t2 : Nat) (emb2 : List ℚ)
    (hr : r ∈ table) (hpath : r.path = path) (hembed : embed c2 = .ok emb2)
    (hfresh : id2 ∉ table.map DocumentRow.id) :
    ∃ table2,
      index_document embed table path c2 k2 id2 t2 = .ok (table2, id2) ∧
      id2 ∉ table2.map DocumentRow.id := by
  have hany : table.any (fun q => q.path = path) = true := by
    rw [List.any_eq_true]
    exact ⟨r, hr, by simp [hpath]⟩
  refine ⟨table.map (fun q =>
    if q.path = path then
      { q with content := c2, embedding := emb2,
               commit_id := k2, updated_at := t2 }
    else q), ?_, ?_⟩
  · simp only [index_document, hembed]
    rw [if_pos hany]
  · rw [List.map_map]
    intro hcontra
    apply hfresh
    rcases List.mem_map.mp hcontra with ⟨q0, hq0, hq0eq⟩
    refine List.mem_map.mpr ⟨q0, hq0, ?_⟩
    by_cases h0 : q0.path = path <;> simp [Function.comp, h0] at hq0eq <;>
      exact hq0eq

/-- Witness for C8: re-indexing the single stored row returns id 9, which is
the id of no row. -/
theorem c8_returned_id_dangling_witness :
    ∃ table2,
      index_document (fun _ => .ok [1])
        [{ id := 7, path := "src/lib.rs", content := "A", embedding := [0],
           commit_id := some "aa", created_at := 1, updated_at := 1 }]
        "src/lib.rs" "B" (some "bb") 9 5 = .ok (table2, 9) ∧
      9 ∉ table2.map DocumentRow.id :=
  c8_returned_id_dangling (fun _ => .ok [1])
    [{ id := 7, path := "src/lib.rs", content := "A", embedding := [0],
       commit_id := some "aa", created_at := 1, updated_at := 1 }]
    { id := 7, path := "src/lib.rs", content := "A", embedding := [0],
      commit_id := some "aa", created_at := 1, updated_at := 1 }
    "src/lib.rs" "B" (some "bb") 9 5 [1]
    (List.mem_singleton.mpr rfl) rfl rfl (by decide)

end AgentIndex
